import Mathlib

/-!
Verification development for the smc-clc CLC-handshake decoding pipeline.

The Go sources are shallowly embedded over byte buffers modelled as
`List Nat` (each entry one octet).  Reads through Go slices are modelled
with `List.getD buf i 0`; `copy` into a fixed-size zeroed array is
modelled by `readN`, which zero-pads exactly as the Go destination array
stays zero where the source is short.  Multi-byte big-endian reads follow
`encoding/binary`.
-/

namespace SmcClc

abbrev Byte := Nat

/-- eyecatcher.go: the SMC-R magic marker E2 D4 C3 D9. -/
def smcrEyecatcher : List Byte := [0xE2, 0xD4, 0xC3, 0xD9]

/-- eyecatcher.go: the SMC-D magic marker E2 D4 C3 C4. -/
def smcdEyecatcher : List Byte := [0xE2, 0xD4, 0xC3, 0xC4]

def clcEyecatcherLen : Nat := 4

def clcTrailerLen : Nat := clcEyecatcherLen

def CLCHeaderLen : Nat := 8

def CLCMessageMaxSize : Nat := 1024

/-- stream.go: scratch buffer size, two maximal CLC messages. -/
def clcMessageBufSize : Nat := CLCMessageMaxSize * 2

def peerIDLen : Nat := 8

def smcTypeR : Nat := 0

def smcTypeD : Nat := 1

def smcTypeB : Nat := 3

def clcProposal : Nat := 0x01

def clcAccept : Nat := 0x02

def clcConfirm : Nat := 0x03

def clcDecline : Nat := 0x04

/-- model of reading n bytes starting at off (Go copy into a zeroed array:
bytes past the end of the source stay zero). -/
def readN (buf : List Byte) (off n : Nat) : List Byte :=
  (List.range n).map fun i => buf.getD (off + i) 0

/-- binary.BigEndian.Uint16 at offset off. -/
def be16 (buf : List Byte) (off : Nat) : Nat :=
  buf.getD off 0 * 256 + buf.getD (off + 1) 0

/-- binary.BigEndian.Uint32 at offset off. -/
def be32 (buf : List Byte) (off : Nat) : Nat :=
  ((buf.getD off 0 * 256 + buf.getD (off + 1) 0) * 256 + buf.getD (off + 2) 0) * 256
    + buf.getD (off + 3) 0

/-- binary.BigEndian.Uint64 at offset off. -/
def be64 (buf : List Byte) (off : Nat) : Nat :=
  be32 buf off * 4294967296 + be32 buf (off + 4)

/-- eyecatcher.go hasEyecatcher: the first four bytes equal one of the two
magic markers. -/
def hasEyecatcher (buf : List Byte) : Bool :=
  readN buf 0 clcEyecatcherLen == smcrEyecatcher
    || readN buf 0 clcEyecatcherLen == smcdEyecatcher

/-- clc.go CLCMessage header fields (eyecatcher, type, length and the
byte-7 bitfield version/flag/reserved/path). -/
structure CLCHeader where
  eyecatcher : List Byte
  typ : Nat
  length : Nat
  version : Nat
  flag : Nat
  reserved : Nat
  path : Nat
deriving DecidableEq

/-- the pure field extraction shared by ParseCLCHeader and CLCMessage.Parse:
eyecatcher from bytes 0..3, type from byte 4, big-endian length from
bytes 5..6, and the byte-7 bitfield split into version, flag, reserved
bit and path. -/
def extractCLCHeader (buf : List Byte) : CLCHeader :=
  let bitfield := buf.getD 7 0
  { eyecatcher := readN buf 0 clcEyecatcherLen
    typ := buf.getD 4 0
    length := be16 buf 5
    version := (bitfield &&& 0b11110000) >>> 4
    flag := (bitfield &&& 0b00001000) >>> 3
    reserved := (bitfield &&& 0b00000100) >>> 2
    path := bitfield &&& 0b00000011 }

/-- clc.go ParseCLCHeader: reject a missing eyecatcher and a declared
length above CLCMessageMaxSize, otherwise extract all header fields.
There is no lower bound check on the declared length. -/
def ParseCLCHeader (buf : List Byte) : Option CLCHeader :=
  if ¬ hasEyecatcher buf then none
  else if CLCMessageMaxSize < be16 buf 5 then none
  else some (extractCLCHeader buf)

/-- the message kinds NewMessage can return (part_011). -/
inductive MsgKind
  | proposalK
  | smcrAcceptK
  | smcdAcceptK
  | smcrConfirmK
  | smcdConfirmK
  | declineK
deriving DecidableEq

/-- part_011 NewMessage: check the eyecatcher, reject lengths above
CLCMessageMaxSize, then dispatch on the type byte (and for Accept and
Confirm also on the path bits) to select a message kind, returning the
declared length alongside.  Unknown type or path yields none. -/
def NewMessage (buf : List Byte) : Option (MsgKind × Nat) :=
  if ¬ hasEyecatcher buf then none
  else
    let length := be16 buf 5
    if CLCMessageMaxSize < length then none
    else
      let typ := buf.getD 4 0
      let path := buf.getD 7 0 &&& 0b00000011
      if typ = clcProposal then some (.proposalK, length)
      else if typ = clcAccept then
        if path = smcTypeR then some (.smcrAcceptK, length)
        else if path = smcTypeD then some (.smcdAcceptK, length)
        else none
      else if typ = clcConfirm then
        if path = smcTypeR then some (.smcrConfirmK, length)
        else if path = smcTypeD then some (.smcdConfirmK, length)
        else none
      else if typ = clcDecline then some (.declineK, length)
      else none

/-- Modelled from the spec (section 3 wire layout): encode a CLC header
record into its 8-byte form — eyecatcher, type byte, big-endian 16-bit
length, and the bitfield byte VVVV F R PP.  No encoder exists in the
source; this definition follows the specification text and is used only
to state the round-trip claim. -/
def encodeHeaderSpec (h : CLCHeader) : List Byte :=
  h.eyecatcher ++
    [h.typ, h.length / 256, h.length % 256,
     (h.version <<< 4) ||| (h.flag <<< 3) ||| (h.reserved <<< 2) ||| h.path]

end SmcClc

namespace SmcClc

/- ## Flow table (internal/cmd/flowtable.go) -/

/-- a gopacket.Flow stands for a pair of endpoints; the flow table only
needs equality on it. -/
structure Flow where
  src : Nat
  dst : Nat
deriving DecidableEq

/-- flowtable.go: fmap is a map from network flow to an inner map from
transport flow to bool; a missing inner map is Go nil, a missing inner
key reads as false. -/
def FlowTable := Flow → Option (Flow → Bool)

/-- flowtable.go init: the empty table. -/
def flowTableInit : FlowTable := fun _ => none

/-- flowtable.go add: materialize the inner map if nil, then set the
transport key to true. -/
def flowTableAdd (ft : FlowTable) (net trans : Flow) : FlowTable :=
  fun n =>
    if n = net then
      some (fun t =>
        if t = trans then true
        else match ft net with
          | some m => m t
          | none => false)
    else ft n

/-- flowtable.go del: when the inner map is non-nil, delete the transport
key (a deleted key reads as false). -/
def flowTableDel (ft : FlowTable) (net trans : Flow) : FlowTable :=
  match ft net with
  | none => ft
  | some m =>
    fun n =>
      if n = net then some (fun t => if t = trans then false else m t)
      else ft n

/-- flowtable.go get: nil inner map or missing key read as false. -/
def flowTableGet (ft : FlowTable) (net trans : Flow) : Bool :=
  match ft net with
  | none => false
  | some m => m trans

end SmcClc

namespace SmcClc

/- ## SMC TCP option (part_013 CheckSMCOption) -/

/-- the fields of a gopacket layers.TCPOption the check reads. -/
structure TCPOption where
  optionType : Nat
  optionLength : Nat
  optionData : List Byte
deriving DecidableEq

/-- part_013: smcOption is the SMC-R eyecatcher. -/
def smcOption : List Byte := smcrEyecatcher

/-- part_013 CheckSMCOption: scan the TCP options for kind 254, length 6
and data equal to the SMC-R eyecatcher. -/
def CheckSMCOption (opts : List TCPOption) : Bool :=
  opts.any fun opt =>
    opt.optionType == 254 && opt.optionLength == 6 && opt.optionData == smcOption

end SmcClc

namespace SmcClc

/- ## Variant decoders (clc_decline.go, part_012, clc_acceptconfirm_smcd.go,
part_014).  Each decoder additionally records every read it performs on the
message buffer as an (offset, byteCount) pair, in source order; errDump of
buf up to hdr.length is recorded as (0, hdr.length). -/

abbrev Reads := List (Nat × Nat)

def clcDeclineLen : Nat := 28

def clcProposalLen : Nat := 52

def clcSMCRAcceptConfirmLen : Nat := 68

def clcSMCDAcceptConfirmLen : Nat := 48

def clcIPv6PfxLen : Nat := 17

/-- clc_decline.go clcDeclineMsg fields. -/
structure DeclineMsg where
  senderPeerID : List Byte
  peerDiagnosis : Nat
  reserved : List Byte
deriving DecidableEq

/-- clc_decline.go parseCLCDecline: reject lengths below 28, else read the
sender peer ID, the diagnosis code, and the reserved bytes. -/
def parseCLCDecline (hdr : CLCHeader) (buf : List Byte) : Option DeclineMsg × Reads :=
  if hdr.length < clcDeclineLen then (none, [(0, hdr.length)])
  else
    (some
      { senderPeerID := readN buf CLCHeaderLen peerIDLen
        peerDiagnosis := be32 buf 16
        reserved := readN buf 20 4 },
     [(8, 8), (16, 4), (20, 4)])

/-- part_012 clcSMCRAcceptConfirmMsg fields. -/
structure SMCRMsg where
  senderPeerID : List Byte
  ibGID : List Byte
  ibMAC : List Byte
  qpn : Nat
  rmbRkey : Nat
  rmbeIdx : Nat
  rmbeAlertToken : Nat
  rmbeSize : Nat
  qpMtu : Nat
  reserved : Nat
  rmbDmaAddr : Nat
  reserved2 : Nat
  psn : Nat
deriving DecidableEq

/-- part_012 parseSMCRAcceptConfirm: reject lengths below 68, else read the
fixed-layout SMC-R accept/confirm body at offsets 8..63. -/
def parseSMCRAcceptConfirm (hdr : CLCHeader) (buf : List Byte) :
    Option SMCRMsg × Reads :=
  if hdr.length < clcSMCRAcceptConfirmLen then (none, [(0, hdr.length)])
  else
    (some
      { senderPeerID := readN buf 8 peerIDLen
        ibGID := readN buf 16 16
        ibMAC := readN buf 32 6
        qpn := (buf.getD 38 0 <<< 16) ||| (buf.getD 39 0 <<< 8) ||| buf.getD 40 0
        rmbRkey := be32 buf 41
        rmbeIdx := buf.getD 45 0
        rmbeAlertToken := be32 buf 46
        rmbeSize := (buf.getD 50 0 &&& 0b11110000) >>> 4
        qpMtu := buf.getD 50 0 &&& 0b00001111
        reserved := buf.getD 51 0
        rmbDmaAddr := be64 buf 52
        reserved2 := buf.getD 60 0
        psn := (buf.getD 61 0 <<< 16) ||| (buf.getD 62 0 <<< 8) ||| buf.getD 63 0 },
     [(8, 8), (16, 16), (32, 6), (38, 3), (41, 4), (45, 1), (46, 4), (50, 1),
      (51, 1), (52, 8), (60, 1), (61, 3)])

/-- clc_acceptconfirm_smcd.go clcSMCDAcceptConfirmMsg fields. -/
structure SMCDMsg where
  smcdGID : Nat
  smcdToken : Nat
  dmbeIdx : Nat
  dmbeSize : Nat
  reserved : Nat
  reserved2 : List Byte
  linkid : Nat
  reserved3 : List Byte
deriving DecidableEq

/-- clc_acceptconfirm_smcd.go parseSMCDAcceptConfirm: reject lengths below
48, else read the fixed-layout SMC-D accept/confirm body at offsets 8..43. -/
def parseSMCDAcceptConfirm (hdr : CLCHeader) (buf : List Byte) :
    Option SMCDMsg × Reads :=
  if hdr.length < clcSMCDAcceptConfirmLen then (none, [(0, hdr.length)])
  else
    (some
      { smcdGID := be64 buf 8
        smcdToken := be64 buf 16
        dmbeIdx := buf.getD 24 0
        dmbeSize := (buf.getD 25 0 &&& 0b11110000) >>> 4
        reserved := buf.getD 25 0 &&& 0b00001111
        reserved2 := readN buf 26 2
        linkid := be32 buf 28
        reserved3 := readN buf 32 12 },
     [(8, 8), (16, 8), (24, 1), (25, 1), (26, 2), (28, 4), (32, 12)])

/-- clc_acceptconfirm.go clcAcceptConfirmMsg: SMC-R part, SMC-D part. -/
structure ACMsg where
  smcr : Option SMCRMsg
  smcd : Option SMCDMsg
deriving DecidableEq

/-- clc_acceptconfirm.go parseCLCAcceptConfirm: parse the SMC-R body when
the header path is SMC-R and the SMC-D body when it is SMC-D; any other
path leaves both parts empty. -/
def parseCLCAcceptConfirm (hdr : CLCHeader) (buf : List Byte) : ACMsg × Reads :=
  let r := if hdr.path = smcTypeR then parseSMCRAcceptConfirm hdr buf else (none, [])
  let d := if hdr.path = smcTypeD then parseSMCDAcceptConfirm hdr buf else (none, [])
  (⟨r.1, d.1⟩, r.2 ++ d.2)

/-- part_014: one IPv6 entry of a proposal, 16 bytes plus a one-byte
significant-bit count. -/
structure Ipv6Pfx where
  pfx : List Byte
  pfxLen : Nat
deriving DecidableEq

/-- part_014 clcProposalMsg fields. -/
structure ProposalMsg where
  senderPeerID : List Byte
  ibGID : List Byte
  ibMAC : List Byte
  ipAreaOffset : Nat
  smcdGID : Nat
  reserved : List Byte
  pfx : List Byte
  pfxLen : Nat
  reserved2 : List Byte
  ipv6PfxCnt : Nat
  ipv6Pfxs : List Ipv6Pfx
deriving DecidableEq

/-- part_014, the IPv6 loop of parseCLCProposal: skip points at the count
byte or at the previous entry's length byte; each iteration advances one
byte, breaks with an errDump read when fewer than 17+4 bytes remain before
hdr.length, otherwise reads a 16-byte entry and its length byte. -/
def parseIpv6Pfxs (len : Nat) (buf : List Byte) :
    Nat → Nat → List Ipv6Pfx × Reads
  | 0, _ => ([], [])
  | Nat.succ cnt, skip =>
    let s := skip + 1
    if len < s + (clcIPv6PfxLen + clcTrailerLen) then ([], [(0, len)])
    else
      let entry : Ipv6Pfx := { pfx := readN buf s 16, pfxLen := buf.getD (s + 16) 0 }
      let rest := parseIpv6Pfxs len buf cnt (s + 16)
      (entry :: rest.1, (s, 16) :: (s + 16, 1) :: rest.2)

/-- part_014 parseCLCProposal: reject lengths below 52; read peer ID, IB
GID, IB MAC and the IP area offset; when the offset is 40 read the SMC-D
GID and 32 reserved bytes (before any bounds check), otherwise skip the
offset; reject when fewer than 4+1+2+1+4 bytes remain; then read the IPv4
area and the advisory IPv6 entry list. -/
def parseCLCProposal (hdr : CLCHeader) (buf : List Byte) :
    Option ProposalMsg × Reads :=
  if hdr.length < clcProposalLen then (none, [(0, hdr.length)])
  else
    let ipAreaOffset := be16 buf 38
    let headReads : Reads := [(8, 8), (16, 16), (32, 6), (38, 2)]
    let smcdGID := if ipAreaOffset = 40 then be64 buf 40 else 0
    let reserved := if ipAreaOffset = 40 then readN buf 48 32 else List.replicate 32 0
    let skip := if ipAreaOffset = 40 then 80 else 40 + ipAreaOffset
    let dReads : Reads := if ipAreaOffset = 40 then [(40, 8), (48, 32)] else []
    if hdr.length < skip + (4 + 1 + 2 + 1 + clcTrailerLen) then
      (none, headReads ++ dReads ++ [(0, hdr.length)])
    else
      let cnt := buf.getD (skip + 7) 0
      let loopRes := parseIpv6Pfxs hdr.length buf cnt (skip + 7)
      (some
        { senderPeerID := readN buf 8 peerIDLen
          ibGID := readN buf 16 16
          ibMAC := readN buf 32 6
          ipAreaOffset := ipAreaOffset
          smcdGID := smcdGID
          reserved := reserved
          pfx := readN buf skip 4
          pfxLen := buf.getD (skip + 4) 0
          reserved2 := readN buf (skip + 5) 2
          ipv6PfxCnt := cnt
          ipv6Pfxs := loopRes.1 },
       headReads ++ dReads ++
         [(skip, 4), (skip + 4, 1), (skip + 5, 2), (skip + 7, 1)] ++ loopRes.2)

/-- the type-dependent message content held by a parsed CLC message. -/
inductive CLCBody
  | proposalB (p : Option ProposalMsg)
  | acceptConfirmB (ac : ACMsg)
  | declineB (d : Option DeclineMsg)
deriving DecidableEq

/-- the observable result of CLCMessage.Parse: header fields, the trailer
bytes, whether the trailer is a valid eyecatcher, and the type-dependent
content (none when the trailer check failed or the type is unknown). -/
structure ParsedCLC where
  hdr : CLCHeader
  trailerBytes : List Byte
  trailerOk : Bool
  message : Option CLCBody
deriving DecidableEq

/-- clc.go CLCMessage.Parse: read the trailer at hdr.length - 4 and stop
with no content when it is not an eyecatcher; otherwise dispatch on the
type byte to the variant decoder. -/
def CLCMessageParse (hdr : CLCHeader) (buf : List Byte) : ParsedCLC :=
  let tr := readN buf (hdr.length - clcTrailerLen) clcTrailerLen
  if ¬ hasEyecatcher tr then ⟨hdr, tr, false, none⟩
  else
    let msg : Option CLCBody :=
      if hdr.typ = clcProposal then some (.proposalB (parseCLCProposal hdr buf).1)
      else if hdr.typ = clcAccept then
        some (.acceptConfirmB (parseCLCAcceptConfirm hdr buf).1)
      else if hdr.typ = clcConfirm then
        some (.acceptConfirmB (parseCLCAcceptConfirm hdr buf).1)
      else if hdr.typ = clcDecline then
        some (.declineB (parseCLCDecline hdr buf).1)
      else none
    ⟨hdr, tr, true, msg⟩

/-- parsing one framed message the way the stream framer does: extract the
header fields from its first 8 bytes, then run CLCMessage.Parse on the
whole buffer. -/
def parseOneCLC (m : List Byte) : ParsedCLC :=
  CLCMessageParse (extractCLCHeader m) m

end SmcClc

namespace SmcClc

/- ## Stream framer (internal/cmd/stream.go smcStream.run)

The framer owns a 2048-byte scratch buffer, zero initialized, and counters
total (bytes read so far) and skip (how far it needs data).  The input is
the finite reassembled byte stream; a read returns every byte still
available that fits into buf[total:], and io.EOF once the closed stream is
drained.  When buf[total:] is empty while undelivered bytes remain, a
tcpreader read returns 0 with no error, so the fill loop spins forever;
fillBuf returns none for that case.  Byte i of the scratch buffer is the
i-th input byte when i < total and zero otherwise. -/

def bufByte (input : List Byte) (total i : Nat) : Byte :=
  if i < total then input.getD i 0 else 0

/-- n bytes of the scratch buffer starting at lo. -/
def bufSlice (input : List Byte) (total lo n : Nat) : List Byte :=
  (List.range n).map fun i => bufByte input total (lo + i)

/-- the inner read loop of smcStream.run: keep reading until total reaches
skip or the stream is drained; none when the loop can never exit because
the scratch buffer is full while input remains. -/
def fillBuf (n skip total : Nat) (eof : Bool) : Option (Nat × Bool) :=
  if eof ∨ skip ≤ total then some (total, eof)
  else if skip ≤ min n clcMessageBufSize then some (min n clcMessageBufSize, false)
  else if n ≤ clcMessageBufSize then some (n, true)
  else none

/-- the framer loop state: bytes read, the skip watermark, the EOF flag,
the previewed message length awaiting its body (Go: clc and clcLen), and
the messages printed so far. -/
structure FrState where
  total : Nat
  skip : Nat
  eof : Bool
  pending : Option Nat
  out : List ParsedCLC
deriving DecidableEq

/-- the result of one iteration of the framer loop. -/
inductive FrStep
  | next (σ : FrState)
  | finished (out : List ParsedCLC)
  | stalled (out : List ParsedCLC)
  | panicked (out : List ParsedCLC)
deriving DecidableEq

/-- one iteration of smcStream.run: run the fill loop; when a message is
pending, parse and print it from buf[skip-clcLen : skip] and advance skip
by the header length (a Go slice or index panic is flagged when skip
exceeds the scratch buffer or the pending length is below the trailer
length); otherwise stop when not enough data is buffered, else preview a
header with NewMessage and either stop (nil message) or advance skip to
the end of the message. -/
def frStep (input : List Byte) (σ : FrState) : FrStep :=
  match fillBuf input.length σ.skip σ.total σ.eof with
  | none => .stalled σ.out
  | some (t, e) =>
    match σ.pending with
    | some clcLen =>
      if clcMessageBufSize < σ.skip ∨ clcLen < clcTrailerLen then .panicked σ.out
      else
        let parsed := parseOneCLC (bufSlice input t (σ.skip - clcLen) clcLen)
        .next ⟨t, σ.skip + CLCHeaderLen, e, none, σ.out ++ [parsed]⟩
    | none =>
      if t < σ.skip then .finished σ.out
      else
        match NewMessage (bufSlice input t (σ.skip - CLCHeaderLen) CLCHeaderLen) with
        | none => .finished σ.out
        | some (_, clcLen) =>
          .next ⟨t, σ.skip + clcLen - CLCHeaderLen, e, some clcLen, σ.out⟩

/-- how a framer run ends: the drain-and-exit path, the spinning fill
loop, or a slice-bounds panic. -/
inductive FrOutcome
  | finished (out : List ParsedCLC)
  | stalled (out : List ParsedCLC)
  | panicked (out : List ParsedCLC)
deriving DecidableEq

/-- the framer loop, fuelled: none means the fuel ran out before the run
ended. -/
def runFramer (input : List Byte) : Nat → FrState → Option FrOutcome
  | 0, _ => none
  | fuel + 1, σ =>
    match frStep input σ with
    | .next σn => runFramer input fuel σn
    | .finished o => some (.finished o)
    | .stalled o => some (.stalled o)
    | .panicked o => some (.panicked o)

/-- smcStream.run starts with an empty buffer waiting for one header. -/
def initFrState : FrState := ⟨0, CLCHeaderLen, false, none, []⟩

/-- the declared total length of a message buffer (header bytes 5..6). -/
def declaredLen (m : List Byte) : Nat := be16 m 5

/-- a message buffer the framer can frame: its declared length matches its
size, it is at least a header long, and NewMessage accepts its header. -/
def Frameable (m : List Byte) : Prop :=
  m.length = declaredLen m ∧ CLCHeaderLen ≤ m.length ∧
    (NewMessage (m.take CLCHeaderLen)).isSome = true

instance (m : List Byte) : Decidable (Frameable m) := by
  unfold Frameable; infer_instance

/-- the trailer bytes of a message buffer are a valid eyecatcher. -/
def trailerValid (m : List Byte) : Bool :=
  hasEyecatcher (readN m (declaredLen m - clcTrailerLen) clcTrailerLen)

/-- the variant decoder produced a body for the message. -/
def bodyOk (m : List Byte) : Bool :=
  match (parseOneCLC m).message with
  | some (.proposalB p) => p.isSome
  | some (.acceptConfirmB ac) => ac.smcr.isSome || ac.smcd.isSome
  | some (.declineB d) => d.isSome
  | none => false

/-- a well-formed CLC message in the sense of the spec: frameable with a
valid trailer and a body passing its variant checks. -/
def WellFormedCLC (m : List Byte) : Prop :=
  Frameable m ∧ trailerValid m = true ∧ bodyOk m = true

instance (m : List Byte) : Decidable (WellFormedCLC m) := by
  unfold WellFormedCLC; infer_instance

/-- total size of a list of message buffers. -/
def lenSum (msgs : List (List Byte)) : Nat := (msgs.map List.length).sum

/-- the messages of rem lie consecutively in input starting at offset S. -/
def layoutAt (input : List Byte) : Nat → List (List Byte) → Prop
  | _, [] => True
  | S, m :: rest =>
    (input.drop S).take m.length = m ∧ layoutAt input (S + m.length) rest

/- ## Concrete byte buffers used in counterexamples and witnesses. -/

/-- a valid 28-byte SMC-R Decline message (from clc_test.go). -/
def declineOK : List Byte :=
  [0xe2, 0xd4, 0xc3, 0xd9, 0x04, 0x00, 0x1c, 0x10,
   0x25, 0x25, 0x25, 0x25, 0x25, 0x25, 0x25, 0x00,
   0x03, 0x03, 0x00, 0x00, 0x00, 0x00, 0x00, 0x00,
   0xe2, 0xd4, 0xc3, 0xd9]

/-- the same Decline message with its trailer zeroed out. -/
def declineBadTr : List Byte :=
  [0xe2, 0xd4, 0xc3, 0xd9, 0x04, 0x00, 0x1c, 0x10,
   0x25, 0x25, 0x25, 0x25, 0x25, 0x25, 0x25, 0x00,
   0x03, 0x03, 0x00, 0x00, 0x00, 0x00, 0x00, 0x00,
   0x00, 0x00, 0x00, 0x00]

/-- a 52-byte Proposal whose ipAreaOffset field (bytes 38..39) is 40. -/
def prop52 : List Byte :=
  [0xe2, 0xd4, 0xc3, 0xd9, 0x01, 0x00, 0x34, 0x10] ++
    List.replicate 30 0 ++ [0x00, 0x28] ++ List.replicate 8 0 ++
    [0xe2, 0xd4, 0xc3, 0xd9]

/-- a 52-byte Proposal with ipAreaOffset 0 and IPv6 entry count 5, far
more entries than its length can hold. -/
def prop52cnt : List Byte :=
  [0xe2, 0xd4, 0xc3, 0xd9, 0x01, 0x00, 0x34, 0x10] ++
    List.replicate 30 0 ++ [0x00, 0x00] ++ List.replicate 7 0 ++ [5] ++
    [0xe2, 0xd4, 0xc3, 0xd9]

/-- an 8-byte buffer with a valid eyecatcher, Decline type and declared
length 0. -/
def d0 : List Byte := [0xe2, 0xd4, 0xc3, 0xd9, 0x04, 0x00, 0x00, 0x10]

/-- an 8-byte buffer with a valid eyecatcher, Proposal type and declared
length 4. -/
def d4 : List Byte := [0xe2, 0xd4, 0xc3, 0xd9, 0x01, 0x00, 0x04, 0x10]

/-- a 68-byte SMC-R Accept (path SMC-R) whose trailer carries the SMC-D
eyecatcher. -/
def acc68 : List Byte :=
  [0xe2, 0xd4, 0xc3, 0xd9, 0x02, 0x00, 0x44, 0x18] ++ List.replicate 56 0 ++
    [0xe2, 0xd4, 0xc3, 0xc4]

/-- a well-formed 1024-byte Decline message (declared length 1024). -/
def big1024 : List Byte :=
  [0xe2, 0xd4, 0xc3, 0xd9, 0x04, 0x04, 0x00, 0x10] ++ List.replicate 1012 0 ++
    [0xe2, 0xd4, 0xc3, 0xd9]

/-- three well-formed messages totalling 2076 bytes, more than the
2048-byte scratch buffer. -/
def bigInput : List Byte := big1024 ++ big1024 ++ declineOK

/-- the concrete CLC header used by the round-trip witness. -/
def hdrW : CLCHeader :=
  { eyecatcher := smcrEyecatcher, typ := 4, length := 28, version := 1,
    flag := 0, reserved := 0, path := 0 }

/-- whether a parsed message carries a decoded SMC-R accept/confirm
body. -/
def hasSMCRBody (p : ParsedCLC) : Bool :=
  match p.message with
  | some (.acceptConfirmB ac) => ac.smcr.isSome
  | _ => false

end SmcClc

namespace SmcClc

/- ## Theorems -/

/-- helper: a declared length above the maximum makes NewMessage fail. -/
theorem NewMessage_none_of_big (b : List Byte)
    (h : CLCMessageMaxSize < be16 b 5) : NewMessage b = none := by
  simp only [NewMessage]
  split_ifs <;> simp_all

/-- helper: every successful NewMessage carries the declared length. -/
theorem NewMessage_length_eq (b : List Byte) (k : MsgKind) (L : Nat)
    (h : NewMessage b = some (k, L)) : L = be16 b 5 := by
  simp only [NewMessage] at h
  split_ifs at h <;> simp_all

/-- helper: every successful NewMessage carries a length within the
maximum message size. -/
theorem NewMessage_length_le (b : List Byte) (k : MsgKind) (L : Nat)
    (h : NewMessage b = some (k, L)) : L ≤ CLCMessageMaxSize := by
  by_cases hbig : CLCMessageMaxSize < be16 b 5
  · rw [NewMessage_none_of_big b hbig] at h
    exact Option.noConfusion h
  · rw [NewMessage_length_eq b k L h]
    omega

/-- helper: a declared length above the maximum makes ParseCLCHeader
fail. -/
theorem ParseCLCHeader_none_of_big (b : List Byte)
    (h : CLCMessageMaxSize < be16 b 5) : ParseCLCHeader b = none := by
  simp only [ParseCLCHeader]
  split_ifs <;> simp_all

/-- helper: every header ParseCLCHeader returns has length within the
maximum message size. -/
theorem ParseCLCHeader_length_le (b : List Byte) (hd : CLCHeader)
    (h : ParseCLCHeader b = some hd) : hd.length ≤ CLCMessageMaxSize := by
  simp only [ParseCLCHeader] at h
  split_ifs at h with h1 h2
  · injection h with h3
    subst h3
    simp only [extractCLCHeader]
    omega

/-- C3, amended: header parsing (NewMessage / ParseCLCHeader) only
enforces the upper length bound: every returned message or header has
declared length at most 1024, and any declared length above 1024 yields
none; no lower bound is checked. -/
theorem smc_C3_amended :
    (∀ b k L, NewMessage b = some (k, L) → L ≤ CLCMessageMaxSize) ∧
    (∀ b, CLCMessageMaxSize < be16 b 5 → NewMessage b = none) ∧
    (∀ b hd, ParseCLCHeader b = some hd → hd.length ≤ CLCMessageMaxSize) ∧
    (∀ b, CLCMessageMaxSize < be16 b 5 → ParseCLCHeader b = none) :=
  ⟨NewMessage_length_le, NewMessage_none_of_big,
   ParseCLCHeader_length_le, ParseCLCHeader_none_of_big⟩

/-- C3, counterexample: the buffer d0 declares length 0, outside [8, 1024],
yet NewMessage returns a Decline message of length 0 and ParseCLCHeader
returns a header of length 0. -/
theorem smc_C3_counterexample :
    NewMessage d0 = some (.declineK, 0) ∧
    (ParseCLCHeader d0).map CLCHeader.length = some 0 ∧
    ¬ (8 : Nat) ≤ 0 := by decide

/-- C3, witness: the amended bound applied to the valid Decline message. -/
theorem smc_C3_witness : (28 : Nat) ≤ CLCMessageMaxSize :=
  smc_C3_amended.1 declineOK .declineK 28 (by decide)

/-- helper: decomposing and recomposing the byte-7 bitfield is lossless on
in-range fields. -/
theorem bitfield_roundtrip :
    ∀ v < 16, ∀ f < 2, ∀ r < 2, ∀ p < 4,
      ((v <<< 4 ||| f <<< 3 ||| r <<< 2 ||| p) &&& 0b11110000) >>> 4 = v ∧
      ((v <<< 4 ||| f <<< 3 ||| r <<< 2 ||| p) &&& 0b00001000) >>> 3 = f ∧
      ((v <<< 4 ||| f <<< 3 ||| r <<< 2 ||| p) &&& 0b00000100) >>> 2 = r ∧
      ((v <<< 4 ||| f <<< 3 ||| r <<< 2 ||| p) &&& 0b00000011) = p := by
  decide

/-- C7: encoding a CLC header with in-range fields, a valid eyecatcher and
8 <= length <= 1024 into the 8-byte wire layout and parsing it back with
ParseCLCHeader recovers the header exactly. -/
theorem smc_C7_roundtrip (h : CLCHeader)
    (he : h.eyecatcher = smcrEyecatcher ∨ h.eyecatcher = smcdEyecatcher)
    (hlen1 : CLCHeaderLen ≤ h.length) (hlen2 : h.length ≤ CLCMessageMaxSize)
    (hv : h.version < 16) (hf : h.flag < 2) (hr : h.reserved < 2)
    (hp : h.path < 4) :
    ParseCLCHeader (encodeHeaderSpec h) = some h := by
  obtain ⟨e, ty, L, v, f, r, p⟩ := h
  simp only at he hlen1 hlen2 hv hf hr hp
  obtain ⟨hb1, hb2, hb3, hb4⟩ := bitfield_roundtrip v hv f hf r hr p hp
  have hL : L / 256 * 256 + L % 256 = L := by omega
  rcases he with he | he <;> subst he
  · have hrw : ParseCLCHeader (encodeHeaderSpec
        ⟨smcrEyecatcher, ty, L, v, f, r, p⟩)
        = if CLCMessageMaxSize < L / 256 * 256 + L % 256 then none
          else some ⟨smcrEyecatcher, ty, L / 256 * 256 + L % 256,
            ((v <<< 4 ||| f <<< 3 ||| r <<< 2 ||| p) &&& 0b11110000) >>> 4,
            ((v <<< 4 ||| f <<< 3 ||| r <<< 2 ||| p) &&& 0b00001000) >>> 3,
            ((v <<< 4 ||| f <<< 3 ||| r <<< 2 ||| p) &&& 0b00000100) >>> 2,
            (v <<< 4 ||| f <<< 3 ||| r <<< 2 ||| p) &&& 0b00000011⟩ := rfl
    rw [hrw, hL, hb1, hb2, hb3, hb4, if_neg (by omega)]
  · have hrw : ParseCLCHeader (encodeHeaderSpec
        ⟨smcdEyecatcher, ty, L, v, f, r, p⟩)
        = if CLCMessageMaxSize < L / 256 * 256 + L % 256 then none
          else some ⟨smcdEyecatcher, ty, L / 256 * 256 + L % 256,
            ((v <<< 4 ||| f <<< 3 ||| r <<< 2 ||| p) &&& 0b11110000) >>> 4,
            ((v <<< 4 ||| f <<< 3 ||| r <<< 2 ||| p) &&& 0b00001000) >>> 3,
            ((v <<< 4 ||| f <<< 3 ||| r <<< 2 ||| p) &&& 0b00000100) >>> 2,
            (v <<< 4 ||| f <<< 3 ||| r <<< 2 ||| p) &&& 0b00000011⟩ := rfl
    rw [hrw, hL, hb1, hb2, hb3, hb4, if_neg (by omega)]

/-- C7, witness: the round trip applied to a concrete SMC-R Decline
header of length 28. -/
theorem smc_C7_witness : ParseCLCHeader (encodeHeaderSpec hdrW) = some hdrW :=
  smc_C7_roundtrip hdrW (Or.inl rfl) (by decide) (by decide) (by decide)
    (by decide) (by decide) (by decide)

/-- C9: CheckSMCOption reports an SMC opt-in exactly when some TCP option
has kind 254, length 6 and data equal to the SMC-R eyecatcher, and in
particular an option carrying the SMC-D eyecatcher does not trigger it. -/
theorem smc_C9_smc_option :
    (∀ opts : List TCPOption,
      CheckSMCOption opts = true ↔
        ∃ o ∈ opts, o.optionType = 254 ∧ o.optionLength = 6 ∧
          o.optionData = smcrEyecatcher) ∧
    CheckSMCOption [⟨254, 6, smcdEyecatcher⟩] = false := by
  constructor
  · intro opts
    simp [CheckSMCOption, List.any_eq_true, smcOption, and_assoc]
  · decide

/-- C10: the flow table behaves as a pure set of flow pairs: adding a
present pair and deleting an absent pair leave the table unchanged, a
fresh add makes the pair present, membership of every other pair is
untouched, and one delete after an add removes the pair. -/
theorem smc_C10_flowtable_set :
    (∀ (ft : FlowTable) (n t : Flow),
      flowTableGet ft n t = true → flowTableAdd ft n t = ft) ∧
    (∀ (ft : FlowTable) (n t : Flow),
      flowTableGet ft n t = false → flowTableDel ft n t = ft) ∧
    (∀ (ft : FlowTable) (n t : Flow),
      flowTableGet (flowTableAdd ft n t) n t = true) ∧
    (∀ (ft : FlowTable) (n t n2 t2 : Flow), (n2, t2) ≠ (n, t) →
      flowTableGet (flowTableAdd ft n t) n2 t2 = flowTableGet ft n2 t2) ∧
    (∀ (ft : FlowTable) (n t : Flow),
      flowTableGet (flowTableDel (flowTableAdd ft n t) n t) n t = false) := by
  refine ⟨?_, ?_, ?_, ?_, ?_⟩
  · intro ft n t h
    unfold flowTableGet at h
    funext n2
    unfold flowTableAdd
    by_cases hn : n2 = n
    · subst hn
      rw [if_pos (show n2 = n2 from rfl)]
      cases hft : ft n2 with
      | none => rw [hft] at h; simp at h
      | some m =>
        rw [hft] at h
        change m t = true at h
        change some (fun t2 => if t2 = t then true else m t2) = some m
        congr 1
        funext t2
        by_cases ht : t2 = t
        · subst ht; simp [h]
        · simp [ht]
    · simp [hn]
  · intro ft n t h
    unfold flowTableGet at h
    unfold flowTableDel
    cases hft : ft n with
    | none => rfl
    | some m =>
      rw [hft] at h
      change m t = false at h
      funext n2
      by_cases hn : n2 = n
      · subst hn
        change (if n2 = n2 then
            some (fun t2 => if t2 = t then false else m t2)
          else ft n2) = ft n2
        rw [if_pos (show n2 = n2 from rfl), hft]
        congr 1
        funext t2
        by_cases ht : t2 = t
        · subst ht; simp [h]
        · simp [ht]
      · change (if n2 = n then
            some (fun t2 => if t2 = t then false else m t2)
          else ft n2) = ft n2
        rw [if_neg hn]
  · intro ft n t
    unfold flowTableGet flowTableAdd
    simp
  · intro ft n t n2 t2 hne
    unfold flowTableGet flowTableAdd
    by_cases hn : n2 = n
    · subst hn
      have ht : t2 ≠ t := by
        intro hh
        exact hne (by rw [hh])
      rw [if_pos (show n2 = n2 from rfl)]
      change (if t2 = t then true
          else match ft n2 with | some m => m t2 | none => false) = _
      rw [if_neg ht]
      cases ft n2 <;> rfl
    · simp [hn]
  · intro ft n t
    unfold flowTableGet flowTableDel flowTableAdd
    simp

/-- C10, witness: the fresh-add conjunct applied to a concrete table. -/
theorem smc_C10_witness :
    flowTableGet (flowTableAdd flowTableInit ⟨0, 1⟩ ⟨2, 3⟩) ⟨0, 1⟩ ⟨2, 3⟩
      = true :=
  smc_C10_flowtable_set.2.2.1 flowTableInit ⟨0, 1⟩ ⟨2, 3⟩

/-- helper: every read of the IPv6 entry loop ends within the declared
length. -/
theorem parseIpv6Pfxs_reads_le (len : Nat) (buf : List Byte) :
    ∀ (cnt s : Nat), ∀ r ∈ (parseIpv6Pfxs len buf cnt s).2,
      r.1 + r.2 ≤ len := by
  intro cnt
  induction cnt with
  | zero => intro s r hr; simp [parseIpv6Pfxs] at hr
  | succ n ih =>
    intro s r hr
    simp only [parseIpv6Pfxs] at hr
    split_ifs at hr with hc
    · simp only [List.mem_singleton] at hr
      subst hr
      simp
    · simp only [List.mem_cons] at hr
      rcases hr with rfl | rfl | hr
      · simp only [clcIPv6PfxLen, clcTrailerLen, clcEyecatcherLen] at hc
        simp
        omega
      · simp only [clcIPv6PfxLen, clcTrailerLen, clcEyecatcherLen] at hc
        simp
        omega
      · exact ih (s + 1 + 16) r hr

/-- helper: every read of the proposal decoder ends within the declared
length or within the first 80 bytes. -/
theorem parseCLCProposal_reads_le (hdr : CLCHeader) (buf : List Byte) :
    ∀ r ∈ (parseCLCProposal hdr buf).2, r.1 + r.2 ≤ max hdr.length 80 := by
  intro r hr
  simp only [parseCLCProposal, clcProposalLen, clcTrailerLen,
    clcEyecatcherLen] at hr
  split_ifs at hr with h52 hoff hmid hmid
  · simp only [List.mem_singleton] at hr
    subst hr
    simp
  · simp only [List.mem_append, List.mem_cons, List.mem_singleton,
      List.not_mem_nil, or_false, false_or, or_assoc] at hr
    rcases hr with rfl | rfl | rfl | rfl | rfl | rfl | rfl <;>
      simp <;> omega
  · simp only [List.mem_append, List.mem_cons, List.mem_singleton,
      List.not_mem_nil, or_false, false_or, or_assoc] at hr
    rcases hr with rfl | rfl | rfl | rfl | rfl | rfl | rfl | rfl | rfl |
      rfl | hr
    · simp; all_goals omega
    · simp; all_goals omega
    · simp; all_goals omega
    · simp; all_goals omega
    · simp; all_goals omega
    · simp; all_goals omega
    · simp; all_goals omega
    · simp; all_goals omega
    · simp; all_goals omega
    · simp; all_goals omega
    · exact le_trans (parseIpv6Pfxs_reads_le hdr.length buf _ _ r hr)
        (le_max_left _ _)
  · simp only [List.mem_append, List.mem_cons, List.mem_singleton,
      List.not_mem_nil, or_false, false_or, or_assoc] at hr
    rcases hr with rfl | rfl | rfl | rfl | rfl <;> simp <;> omega
  · simp only [List.mem_append, List.mem_cons, List.mem_singleton,
      List.not_mem_nil, or_false, false_or, or_assoc] at hr
    rcases hr with rfl | rfl | rfl | rfl | rfl | rfl | rfl | rfl | hr
    · simp; all_goals omega
    · simp; all_goals omega
    · simp; all_goals omega
    · simp; all_goals omega
    · simp; all_goals omega
    · simp; all_goals omega
    · simp; all_goals omega
    · simp; all_goals omega
    · exact le_trans (parseIpv6Pfxs_reads_le hdr.length buf _ _ r hr)
        (le_max_left _ _)

/-- helper: when the IP area offset is not 40 every proposal read ends
within the declared length. -/
theorem parseCLCProposal_reads_le_len (hdr : CLCHeader) (buf : List Byte)
    (hoff : be16 buf 38 ≠ 40) :
    ∀ r ∈ (parseCLCProposal hdr buf).2, r.1 + r.2 ≤ hdr.length := by
  intro r hr
  simp only [parseCLCProposal, clcProposalLen, clcTrailerLen,
    clcEyecatcherLen] at hr
  rw [if_neg hoff, if_neg hoff] at hr
  split_ifs at hr with h52 hmid
  · simp only [List.mem_singleton] at hr
    subst hr
    simp
  · simp only [List.mem_append, List.mem_cons, List.mem_singleton,
      List.not_mem_nil, or_false, false_or, or_assoc] at hr
    rcases hr with rfl | rfl | rfl | rfl | rfl <;> simp <;> omega
  · simp only [List.mem_append, List.mem_cons, List.mem_singleton,
      List.not_mem_nil, or_false, false_or, or_assoc] at hr
    rcases hr with rfl | rfl | rfl | rfl | rfl | rfl | rfl | rfl | hr
    · simp; all_goals omega
    · simp; all_goals omega
    · simp; all_goals omega
    · simp; all_goals omega
    · simp; all_goals omega
    · simp; all_goals omega
    · simp; all_goals omega
    · simp; all_goals omega
    · exact parseIpv6Pfxs_reads_le hdr.length buf _ _ r hr

/-- C1, amended: the Decline, SMC-R and SMC-D accept/confirm decoders read
only offsets strictly below the declared length; the Proposal decoder does
too except on its SMC-D info path (ipAreaOffset = 40), where it reads
offsets 40..79 before any bounds check, so its reads are only bounded by
max(length, 80). -/
theorem smc_C1_amended :
    (∀ (hdr : CLCHeader) (buf : List Byte),
      ∀ r ∈ (parseCLCDecline hdr buf).2, r.1 + r.2 ≤ hdr.length) ∧
    (∀ (hdr : CLCHeader) (buf : List Byte),
      ∀ r ∈ (parseSMCRAcceptConfirm hdr buf).2, r.1 + r.2 ≤ hdr.length) ∧
    (∀ (hdr : CLCHeader) (buf : List Byte),
      ∀ r ∈ (parseSMCDAcceptConfirm hdr buf).2, r.1 + r.2 ≤ hdr.length) ∧
    (∀ (hdr : CLCHeader) (buf : List Byte),
      ∀ r ∈ (parseCLCProposal hdr buf).2, r.1 + r.2 ≤ max hdr.length 80) ∧
    (∀ (hdr : CLCHeader) (buf : List Byte), be16 buf 38 ≠ 40 →
      ∀ r ∈ (parseCLCProposal hdr buf).2, r.1 + r.2 ≤ hdr.length) := by
  refine ⟨?_, ?_, ?_, parseCLCProposal_reads_le, parseCLCProposal_reads_le_len⟩
  · intro hdr buf r hr
    simp only [parseCLCDecline, clcDeclineLen] at hr
    split_ifs at hr with hlen
    · simp only [List.mem_singleton] at hr
      subst hr
      simp
    · simp only [List.mem_cons, List.mem_singleton, List.not_mem_nil,
        or_false, false_or] at hr
      rcases hr with rfl | rfl | rfl <;> simp <;> omega
  · intro hdr buf r hr
    simp only [parseSMCRAcceptConfirm, clcSMCRAcceptConfirmLen] at hr
    split_ifs at hr with hlen
    · simp only [List.mem_singleton] at hr
      subst hr
      simp
    · simp only [List.mem_cons, List.mem_singleton, List.not_mem_nil,
        or_false, false_or] at hr
      rcases hr with rfl | rfl | rfl | rfl | rfl | rfl | rfl | rfl | rfl |
        rfl | rfl | rfl <;> simp <;> omega
  · intro hdr buf r hr
    simp only [parseSMCDAcceptConfirm, clcSMCDAcceptConfirmLen] at hr
    split_ifs at hr with hlen
    · simp only [List.mem_singleton] at hr
      subst hr
      simp
    · simp only [List.mem_cons, List.mem_singleton, List.not_mem_nil,
        or_false, false_or] at hr
      rcases hr with rfl | rfl | rfl | rfl | rfl | rfl | rfl <;>
        simp <;> omega

/-- C1, counterexample: on a 52-byte Proposal with ipAreaOffset 40 the
decoder performs the read (48, 32), which extends to offset 79, beyond
the declared length 52. -/
theorem smc_C1_counterexample :
    (extractCLCHeader prop52).length = 52 ∧ be16 prop52 38 = 40 ∧
    (48, 32) ∈ (parseCLCProposal (extractCLCHeader prop52) prop52).2 ∧
    ¬ (48 + 32 ≤ (extractCLCHeader prop52).length) := by decide

/-- C1, witness: the Decline bound applied to a concrete read of the
valid 28-byte Decline message. -/
theorem smc_C1_witness : (8 : Nat) + 8 ≤ (extractCLCHeader declineOK).length :=
  smc_C1_amended.1 (extractCLCHeader declineOK) declineOK (8, 8) (by decide)

/-- helper: readN of a four-byte list is the list itself. -/
theorem readN_len4 (l : List Byte) (h : l.length = 4) :
    readN l 0 clcEyecatcherLen = l := by
  rcases l with _ | ⟨a, _ | ⟨b, _ | ⟨c, _ | ⟨d, _ | ⟨e, tl⟩⟩⟩⟩⟩
  · simp at h
  · simp at h
  · simp at h
  · simp at h
  · rfl
  · simp at h

/-- helper: readN always returns the requested number of bytes. -/
theorem readN_length (buf : List Byte) (off n : Nat) :
    (readN buf off n).length = n := by
  simp [readN]

/-- helper: on four-byte lists hasEyecatcher means equality with one of
the two magic markers. -/
theorem hasEyecatcher_eq (l : List Byte) (h : l.length = 4) :
    hasEyecatcher l = true ↔ l = smcrEyecatcher ∨ l = smcdEyecatcher := by
  unfold hasEyecatcher
  rw [readN_len4 l h]
  simp

/-- helper: the trailer bytes CLCMessage.Parse stores. -/
theorem CLCMessageParse_trailerBytes (hdr : CLCHeader) (buf : List Byte) :
    (CLCMessageParse hdr buf).trailerBytes
      = readN buf (hdr.length - clcTrailerLen) clcTrailerLen := by
  simp only [CLCMessageParse]
  split_ifs with hx <;> rfl

/-- helper: the trailer check CLCMessage.Parse performs. -/
theorem CLCMessageParse_trailerOk (hdr : CLCHeader) (buf : List Byte) :
    (CLCMessageParse hdr buf).trailerOk
      = hasEyecatcher (readN buf (hdr.length - clcTrailerLen) clcTrailerLen) := by
  simp only [CLCMessageParse]
  split_ifs with hx <;> simp_all

/-- C6, amended: every message accepted by CLCMessage.Parse has a trailer
equal to one of the two eyecatchers, but the code never compares the
trailer with the header path, so an SMC-R path with an SMC-D trailer (and
vice versa) is accepted. -/
theorem smc_C6_amended (hdr : CLCHeader) (buf : List Byte)
    (h : (CLCMessageParse hdr buf).trailerOk = true) :
    (CLCMessageParse hdr buf).trailerBytes = smcrEyecatcher ∨
      (CLCMessageParse hdr buf).trailerBytes = smcdEyecatcher := by
  rw [CLCMessageParse_trailerOk] at h
  rw [CLCMessageParse_trailerBytes]
  exact (hasEyecatcher_eq _ (readN_length buf _ _)).mp h

/-- C6, counterexample: a 68-byte Accept with header path SMC-R and
trailer E2 D4 C3 C4 (the SMC-D eyecatcher) passes the trailer check and
decodes an SMC-R body, so its trailer does not match its path's
eyecatcher. -/
theorem smc_C6_counterexample :
    (parseOneCLC acc68).trailerOk = true ∧
    (parseOneCLC acc68).hdr.typ = clcAccept ∧
    (parseOneCLC acc68).hdr.path = smcTypeR ∧
    hasSMCRBody (parseOneCLC acc68) = true ∧
    (parseOneCLC acc68).trailerBytes = smcdEyecatcher ∧
    smcdEyecatcher ≠ smcrEyecatcher := by decide

/-- C6, witness: the amended trailer property on the concrete accepted
Accept message. -/
theorem smc_C6_witness :
    (CLCMessageParse (extractCLCHeader acc68) acc68).trailerBytes
        = smcrEyecatcher ∨
      (CLCMessageParse (extractCLCHeader acc68) acc68).trailerBytes
        = smcdEyecatcher :=
  smc_C6_amended (extractCLCHeader acc68) acc68 (by decide)

/-- helper: the number of IPv6 entries the loop decodes is the number of
declared entries whose 17 bytes plus the trailer still fit below the
declared length. -/
theorem parseIpv6Pfxs_length (len : Nat) (buf : List Byte) :
    ∀ (cnt s : Nat),
      (parseIpv6Pfxs len buf cnt s).1.length
        = (List.range cnt).countP fun i => decide (s + 1 + 17 * i + 21 ≤ len) := by
  intro cnt
  induction cnt with
  | zero => intro s; simp [parseIpv6Pfxs]
  | succ n ih =>
    intro s
    simp only [parseIpv6Pfxs, clcIPv6PfxLen, clcTrailerLen, clcEyecatcherLen]
    split_ifs with hc
    · simp only [List.length_nil]
      symm
      rw [List.countP_eq_zero]
      intro i hi
      simp only [decide_eq_true_eq]
      omega
    · simp only [List.length_cons, ih (s + 1 + 16)]
      rw [List.range_succ_eq_map, List.countP_cons_of_pos _ _
        (by simp only [decide_eq_true_eq]; omega), List.countP_map]
      have hfun : ((fun i => decide (s + 1 + 17 * i + 21 ≤ len)) ∘ Nat.succ)
          = fun i => decide (s + 1 + 16 + 1 + 17 * i + 21 ≤ len) := by
        funext i
        simp only [Function.comp_apply]
        rw [decide_eq_decide]
        omega
      rw [hfun]

/-- C8: a Proposal of length at least 52 whose IP-area check passes but
whose declared IPv6 entry count does not fit before the trailer is still
decoded to a value (not an error), containing exactly the entries that
fit, strictly fewer than declared. -/
theorem smc_C8_advisory (hdr : CLCHeader) (buf : List Byte) (sArea n : Nat)
    (hs : sArea = if be16 buf 38 = 40 then 80 else 40 + be16 buf 38)
    (hn : n = buf.getD (sArea + 7) 0)
    (h52 : clcProposalLen ≤ hdr.length)
    (hmid : sArea + 12 ≤ hdr.length)
    (hexc : ∃ i, i < n ∧ hdr.length < sArea + 7 + 1 + 17 * i + 21) :
    ((parseCLCProposal hdr buf).1.map fun p => p.ipv6Pfxs.length)
        = some ((List.range n).countP fun i =>
            decide (sArea + 7 + 1 + 17 * i + 21 ≤ hdr.length)) ∧
      ((List.range n).countP fun i =>
          decide (sArea + 7 + 1 + 17 * i + 21 ≤ hdr.length)) < n := by
  constructor
  · simp only [parseCLCProposal, clcProposalLen, clcTrailerLen,
      clcEyecatcherLen] at *
    rw [if_neg (by omega), ← hs, if_neg (by omega)]
    simp only [Option.map_some']
    rw [← hn]
    simp only [Option.some.injEq]
    rw [parseIpv6Pfxs_length]
  · rcases hexc with ⟨i, hi, hbig⟩
    have h1 : ((List.range n).countP fun i =>
        decide (sArea + 7 + 1 + 17 * i + 21 ≤ hdr.length)) ≤ n := by
      calc ((List.range n).countP _) ≤ (List.range n).length :=
            List.countP_le_length _
        _ = n := List.length_range n
    have h2 : ¬ ((List.range n).countP fun i =>
        decide (sArea + 7 + 1 + 17 * i + 21 ≤ hdr.length)) = n := by
      intro he
      have hcl : ((List.range n).countP fun i =>
          decide (sArea + 7 + 1 + 17 * i + 21 ≤ hdr.length))
            = (List.range n).length := by
        rw [he, List.length_range]
      have hp := List.countP_eq_length.mp hcl i (List.mem_range.mpr hi)
      simp only [decide_eq_true_eq] at hp
      omega
    omega

/-- helper: getD below the cut of a take sees through it. -/
theorem getD_take (l : List Byte) (n i : Nat) (d : Byte) (h : i < n) :
    (l.take n).getD i d = l.getD i d := by
  induction l generalizing n i with
  | nil => simp
  | cons a tl ih =>
    cases n with
    | zero => omega
    | succ n =>
      cases i with
      | zero => simp
      | succ i =>
        simp only [List.take_succ_cons, List.getD_cons_succ]
        exact ih n i (by omega)

/-- helper: the declared length read from the 8-byte header view. -/
theorem be16_take8 (m : List Byte) : be16 (m.take 8) 5 = be16 m 5 := by
  unfold be16
  rw [getD_take m 8 5 0 (by omega), getD_take m 8 6 0 (by omega)]

/-- helper: a take of a drop written as a map over offsets. -/
theorem take_drop_eq_map_range (l : List Byte) :
    ∀ (n lo : Nat), lo + n ≤ l.length →
      (l.drop lo).take n = (List.range n).map fun i => l.getD (lo + i) 0 := by
  intro n
  induction n with
  | zero => intro lo h; simp
  | succ n ih =>
    intro lo h
    have hlo : lo < l.length := by omega
    rw [List.drop_eq_getElem_cons hlo, List.take_succ_cons,
      List.range_succ_eq_map, List.map_cons, List.map_map]
    congr 1
    · rw [Nat.add_zero, List.getD_eq_getElem l 0 hlo]
    · rw [ih (lo + 1) (by omega)]
      apply List.map_congr_left
      intro i hi
      simp only [Function.comp_apply]
      congr 1
      omega

/-- helper: a scratch-buffer slice below total is the matching input
slice. -/
theorem bufSlice_eq (input : List Byte) (t lo n : Nat)
    (h1 : lo + n ≤ t) (h2 : t ≤ input.length) :
    bufSlice input t lo n = (input.drop lo).take n := by
  rw [take_drop_eq_map_range input n lo (by omega)]
  unfold bufSlice bufByte
  apply List.map_congr_left
  intro i hi
  rw [List.mem_range] at hi
  rw [if_pos (by omega)]

/-- helper: the fill loop is a no-op once total reaches skip. -/
theorem fillBuf_le (n skip total : Nat) (h : skip ≤ total) :
    fillBuf n skip total false = some (total, false) := by
  unfold fillBuf
  rw [if_pos (by simp [h])]

/-- helper: the fill loop reads to the watermark when skip is inside the
available input and the scratch buffer. -/
theorem fillBuf_fill (n skip total : Nat) (h1 : total < skip)
    (h2 : skip ≤ min n clcMessageBufSize) :
    fillBuf n skip total false = some (min n clcMessageBufSize, false) := by
  unfold fillBuf
  rw [if_neg (by simp; omega), if_pos h2]

/-- helper: the fill loop hits EOF when the input is shorter than skip
but fits the scratch buffer. -/
theorem fillBuf_eof (n skip total : Nat) (h1 : total < skip)
    (h2 : min n clcMessageBufSize < skip) (h3 : n ≤ clcMessageBufSize) :
    fillBuf n skip total false = some (n, true) := by
  unfold fillBuf
  rw [if_neg (by simp; omega), if_neg (by omega), if_pos h3]

/-- helper: the fill loop spins forever when skip exceeds the scratch
buffer while undelivered input remains. -/
theorem fillBuf_stall (n skip total : Nat) (h1 : total < skip)
    (h2 : clcMessageBufSize < skip) (h3 : clcMessageBufSize < n) :
    fillBuf n skip total false = none := by
  unfold fillBuf
  rw [if_neg (by simp; omega), if_neg (by omega), if_neg (by omega)]

/-- helper: a header-preview iteration on a frameable message laid out at
offset S advances skip to the end of the message. -/
theorem frStep_header (input : List Byte) (S L t : Nat) (out : List ParsedCLC)
    (m : List Byte)
    (htake : (input.drop S).take L = m) (hmL : m.length = L) (hL8 : 8 ≤ L)
    (hSL : S + L ≤ t) (ht : t ≤ input.length) (ht2 : t ≤ clcMessageBufSize)
    (hNM : (NewMessage (m.take 8)).isSome = true)
    (hLd : declaredLen m = L) :
    frStep input ⟨t, S + 8, false, none, out⟩
      = .next ⟨t, S + L, false, some L, out⟩ := by
  obtain ⟨⟨k, L2⟩, hk⟩ := Option.isSome_iff_exists.mp hNM
  have hL2 : L2 = L := by
    rw [NewMessage_length_eq _ _ _ hk, be16_take8]
    exact hLd
  rw [hL2] at hk
  have hfill : fillBuf input.length (S + 8) t false = some (t, false) :=
    fillBuf_le _ _ _ (by omega)
  have hslice : bufSlice input t S 8 = m.take 8 := by
    rw [bufSlice_eq input t S 8 (by omega) ht, ← htake, List.take_take]
    congr 1
    omega
  simp only [frStep, hfill, CLCHeaderLen, Nat.add_sub_cancel]
  rw [if_neg (show ¬ t < S + 8 by omega), hslice, hk]
  show FrStep.next ⟨t, S + 8 + L - 8, false, some L, out⟩
    = FrStep.next ⟨t, S + L, false, some L, out⟩
  have e2 : S + 8 + L - 8 = S + L := by omega
  rw [e2]

/-- helper: an emit iteration parses and prints the pending message and
advances skip by the header length. -/
theorem frStep_emit (input : List Byte) (S L t : Nat) (out : List ParsedCLC)
    (m : List Byte)
    (htake : (input.drop S).take L = m) (hmL : m.length = L) (hL8 : 8 ≤ L)
    (hSL : S + L ≤ t) (ht : t ≤ input.length) (ht2 : t ≤ clcMessageBufSize) :
    frStep input ⟨t, S + L, false, some L, out⟩
      = .next ⟨t, S + L + 8, false, none, out ++ [parseOneCLC m]⟩ := by
  have ht2n : t ≤ 2048 := by
    simpa [clcMessageBufSize, CLCMessageMaxSize] using ht2
  have hfill : fillBuf input.length (S + L) t false = some (t, false) :=
    fillBuf_le _ _ _ hSL
  have hslice : bufSlice input t S L = m := by
    rw [bufSlice_eq input t S L hSL ht, htake]
  simp only [frStep, hfill, CLCHeaderLen, clcTrailerLen, clcEyecatcherLen,
    clcMessageBufSize, CLCMessageMaxSize, Nat.add_sub_cancel]
  rw [if_neg (by omega), hslice]

/-- helper: with the whole input buffered but short of skip, the framer
takes the drain-and-exit path. -/
theorem frStep_done (input : List Byte) (t E : Nat) (out : List ParsedCLC)
    (h1 : t ≤ input.length) (h2 : input.length < E)
    (h3 : input.length ≤ clcMessageBufSize) :
    frStep input ⟨t, E, false, none, out⟩ = .finished out := by
  have hfill : fillBuf input.length E t false = some (input.length, true) :=
    fillBuf_eof _ _ _ (by omega) (by omega) h3
  simp only [frStep, hfill]
  rw [if_pos h2]

/-- helper: with more than a scratch buffer of input and skip beyond the
scratch buffer, the framer spins in its fill loop. -/
theorem frStep_stall (input : List Byte) (t E : Nat) (out : List ParsedCLC)
    (h1 : t < E) (h2 : clcMessageBufSize < E)
    (h3 : clcMessageBufSize < input.length) :
    frStep input ⟨t, E, false, none, out⟩ = .stalled out := by
  have hfill : fillBuf input.length E t false = none :=
    fillBuf_stall _ _ _ h1 h2 h3
  simp only [frStep, hfill]

/-- helper: the first iteration from the empty buffer equals the first
iteration from a buffer already filled to min(input, scratch). -/
theorem frStep_init_eq (input : List Byte) (out : List ParsedCLC)
    (h8 : 8 ≤ min input.length clcMessageBufSize) :
    frStep input ⟨0, 8, false, none, out⟩
      = frStep input ⟨min input.length clcMessageBufSize, 8, false, none, out⟩ := by
  have h1 : fillBuf input.length 8 0 false
      = some (min input.length clcMessageBufSize, false) :=
    fillBuf_fill _ _ _ (by omega) h8
  have h2 : fillBuf input.length 8 (min input.length clcMessageBufSize) false
      = some (min input.length clcMessageBufSize, false) :=
    fillBuf_le _ _ _ h8
  simp only [frStep, h1, h2]

/-- helper: one fuelled framer iteration on a continuing step. -/
theorem runFramer_next (input : List Byte) (f : Nat) (σ σn : FrState)
    (h : frStep input σ = .next σn) :
    runFramer input (f + 1) σ = runFramer input f σn := by
  simp [runFramer, h]

/-- helper: one fuelled framer iteration on the exit step. -/
theorem runFramer_finish (input : List Byte) (f : Nat) (σ : FrState)
    (o : List ParsedCLC) (h : frStep input σ = .finished o) :
    runFramer input (f + 1) σ = some (.finished o) := by
  simp [runFramer, h]

/-- helper: one fuelled framer iteration on the spinning step. -/
theorem runFramer_stalled (input : List Byte) (f : Nat) (σ : FrState)
    (o : List ParsedCLC) (h : frStep input σ = .stalled o) :
    runFramer input (f + 1) σ = some (.stalled o) := by
  simp [runFramer, h]

/-- helper: runs from states whose first iterations agree, agree. -/
theorem runFramer_congr_step (input : List Byte) (f : Nat) (σ1 σ2 : FrState)
    (h : frStep input σ1 = frStep input σ2) :
    runFramer input (f + 1) σ1 = runFramer input (f + 1) σ2 := by
  simp only [runFramer, h]

/-- helper: lenSum of a cons. -/
theorem lenSum_cons (m : List Byte) (rest : List (List Byte)) :
    lenSum (m :: rest) = m.length + lenSum rest := by
  simp [lenSum]

/-- helper: the length of a join is the lenSum. -/
theorem length_join_eq_lenSum (msgs : List (List Byte)) :
    (msgs.join).length = lenSum msgs := by
  simp [lenSum, List.length_join]

/-- helper: a decomposition of a drop of the input into messages plus a
suffix is a layout. -/
theorem layoutAt_of_eq (input : List Byte) :
    ∀ (msgs : List (List Byte)) (S : Nat) (suf : List Byte),
      input.drop S = msgs.join ++ suf → layoutAt input S msgs := by
  intro msgs
  induction msgs with
  | nil => intro S suf h; trivial
  | cons m rest ih =>
    intro S suf h
    simp only [List.join, List.flatten_cons] at h
    rw [List.append_assoc] at h
    constructor
    · rw [h, List.take_left]
    · apply ih (S + m.length) suf
      have h2 := congrArg (List.drop m.length) h
      rw [List.drop_drop, List.drop_left] at h2
      exact h2

/-- helper: processing a consecutive layout of frameable messages costs
two framer iterations per message and appends their parses, in order. -/
theorem runFramer_layout (input : List Byte) (t : Nat)
    (ht : t ≤ input.length) (ht2 : t ≤ clcMessageBufSize) :
    ∀ (rem : List (List Byte)) (S : Nat) (out : List ParsedCLC) (f : Nat)
      (r : FrOutcome),
      (∀ m ∈ rem, Frameable m) →
      layoutAt input S rem →
      S + lenSum rem ≤ t →
      runFramer input f
          ⟨t, S + lenSum rem + 8, false, none, out ++ rem.map parseOneCLC⟩
        = some r →
      runFramer input (2 * rem.length + f) ⟨t, S + 8, false, none, out⟩
        = some r := by
  intro rem
  induction rem with
  | nil =>
    intro S out f r _ _ _ h
    simpa [lenSum] using h
  | cons m rest ih =>
    intro S out f r hfr hly hle h
    obtain ⟨hly1, hly2⟩ := hly
    obtain ⟨hfr1, hfr2, hfr3⟩ := hfr m (by simp)
    have hL8 : 8 ≤ m.length := hfr2
    have hlcons := lenSum_cons m rest
    have hSL : S + m.length ≤ t := by omega
    have hstep1 := frStep_header input S m.length t out m hly1 rfl hL8 hSL
      ht ht2 hfr3 hfr1.symm
    have hstep2 := frStep_emit input S m.length t out m hly1 rfl hL8 hSL ht ht2
    have e : 2 * (m :: rest).length + f = ((2 * rest.length + f) + 1) + 1 := by
      simp [List.length_cons]
      omega
    rw [e, runFramer_next _ _ _ _ hstep1, runFramer_next _ _ _ _ hstep2]
    apply ih (S + m.length) (out ++ [parseOneCLC m]) f r
      (fun x hx => hfr x (List.mem_cons_of_mem _ hx)) hly2 (by omega)
    have e2 : S + m.length + lenSum rest + 8 = S + lenSum (m :: rest) + 8 := by
      omega
    have happ : (out ++ [parseOneCLC m]) ++ rest.map parseOneCLC
        = out ++ (m :: rest).map parseOneCLC := by simp
    rw [e2, happ]
    exact h

/-- helper: a stream that is exactly a concatenation of frameable
messages fitting the scratch buffer is fully framed: every message is
parsed and printed in wire order and the framer exits cleanly. -/
theorem runFramer_frameable (msgs : List (List Byte))
    (h1 : ∀ m ∈ msgs, Frameable m)
    (h2 : (msgs.join).length ≤ clcMessageBufSize) :
    runFramer msgs.join (2 * msgs.length + 1) initFrState
      = some (.finished (msgs.map parseOneCLC)) := by
  cases msgs with
  | nil => rfl
  | cons m0 rest =>
    have hfr0 := h1 m0 (by simp)
    obtain ⟨hfr1, hfr2, hfr3⟩ := hfr0
    have hNlen := length_join_eq_lenSum (m0 :: rest)
    have hlcons := lenSum_cons m0 rest
    have hc8 : CLCHeaderLen = 8 := rfl
    have hN8 : 8 ≤ ((m0 :: rest).join).length := by omega
    have hmin : min ((m0 :: rest).join).length clcMessageBufSize
        = ((m0 :: rest).join).length := by omega
    have hterm : runFramer (m0 :: rest).join 1
        ⟨((m0 :: rest).join).length, 0 + lenSum (m0 :: rest) + 8, false, none,
          [] ++ (m0 :: rest).map parseOneCLC⟩
        = some (.finished ((m0 :: rest).map parseOneCLC)) := by
      rw [runFramer_finish _ 0 _ _ (frStep_done _ _ _ _ (le_refl _)
        (by omega) h2)]
      simp
    have hmain := runFramer_layout (m0 :: rest).join ((m0 :: rest).join).length
      (le_refl _) h2 (m0 :: rest) 0 [] 1 _ h1
      (layoutAt_of_eq _ (m0 :: rest) 0 [] (by simp)) (by omega) hterm
    have hbridge := frStep_init_eq (m0 :: rest).join [] (by omega)
    rw [hmin] at hbridge
    calc runFramer (m0 :: rest).join (2 * (m0 :: rest).length + 1) initFrState
        = runFramer (m0 :: rest).join (2 * (m0 :: rest).length + 1)
            ⟨((m0 :: rest).join).length, 8, false, none, []⟩ :=
          runFramer_congr_step _ _ _ _ hbridge
      _ = some (.finished ((m0 :: rest).map parseOneCLC)) := by
          have e0 : (0 : Nat) + 8 = 8 := by omega
          rw [← e0]
          exact hmain

/-- helper: frameable messages fit the maximum message size. -/
theorem Frameable_length_le (m : List Byte) (h : Frameable m) :
    m.length ≤ CLCMessageMaxSize := by
  obtain ⟨h1, h2, h3⟩ := h
  obtain ⟨⟨k, L⟩, hk⟩ := Option.isSome_iff_exists.mp h3
  have hle := NewMessage_length_le _ _ _ hk
  have hL := NewMessage_length_eq _ _ _ hk
  simp only [CLCHeaderLen] at hL
  rw [be16_take8] at hL
  unfold declaredLen at h1
  omega

/-- helper: an invalid trailer leaves the parsed message without typed
content. -/
theorem parseOneCLC_message_none (m : List Byte)
    (h : trailerValid m = false) : (parseOneCLC m).message = none := by
  unfold trailerValid at h
  unfold parseOneCLC
  have hlen : (extractCLCHeader m).length = declaredLen m := rfl
  simp only [CLCMessageParse, hlen, h]
  rw [if_pos (by simp)]

/-- C2, amended: a framed message whose header parses but whose
validation fails is not silently dropped: the framer still emits exactly
one output line for it; only the typed body is absent — the trailer
failure leaves the message content empty, and each variant decoder
returns no value on a body shorter than its minimum. -/
theorem smc_C2_amended :
    (∀ m : List Byte, Frameable m → trailerValid m = false →
      runFramer m 3 initFrState = some (.finished [parseOneCLC m]) ∧
        (parseOneCLC m).message = none) ∧
    (∀ (hdr : CLCHeader) (buf : List Byte), hdr.length < clcDeclineLen →
      (parseCLCDecline hdr buf).1 = none) ∧
    (∀ (hdr : CLCHeader) (buf : List Byte), hdr.length < clcProposalLen →
      (parseCLCProposal hdr buf).1 = none) ∧
    (∀ (hdr : CLCHeader) (buf : List Byte),
      hdr.length < clcSMCRAcceptConfirmLen →
      (parseSMCRAcceptConfirm hdr buf).1 = none) ∧
    (∀ (hdr : CLCHeader) (buf : List Byte),
      hdr.length < clcSMCDAcceptConfirmLen →
      (parseSMCDAcceptConfirm hdr buf).1 = none) := by
  refine ⟨?_, ?_, ?_, ?_, ?_⟩
  · intro m hfr htr
    constructor
    · have hml := Frameable_length_le m hfr
      have hlen : ([m].join).length ≤ clcMessageBufSize := by
        have h9 : ([m].join).length = m.length := by simp
        rw [h9]
        simp only [clcMessageBufSize, CLCMessageMaxSize]
        simp only [CLCMessageMaxSize] at hml
        omega
      have hrun := runFramer_frameable [m] (by
        intro x hx
        rw [List.mem_singleton] at hx
        subst hx
        exact hfr) hlen
      simpa using hrun
    · exact parseOneCLC_message_none m htr
  · intro hdr buf h
    simp only [parseCLCDecline]
    rw [if_pos h]
  · intro hdr buf h
    simp only [parseCLCProposal]
    rw [if_pos h]
  · intro hdr buf h
    simp only [parseSMCRAcceptConfirm]
    rw [if_pos h]
  · intro hdr buf h
    simp only [parseSMCDAcceptConfirm]
    rw [if_pos h]

/-- C2, counterexample: for the 28-byte Decline with a zeroed trailer the
header parses, validation fails, yet the framer emits one output line
(the output list is not empty as the claim requires). -/
theorem smc_C2_counterexample :
    runFramer declineBadTr 3 initFrState
      = some (.finished [parseOneCLC declineBadTr]) ∧
    [parseOneCLC declineBadTr].length = 1 ∧
    (parseOneCLC declineBadTr).trailerOk = false := by decide

/-- C2, witness: the amended emission property on the concrete Decline
with a corrupted trailer. -/
theorem smc_C2_witness :
    runFramer declineBadTr 3 initFrState
      = some (.finished [parseOneCLC declineBadTr]) ∧
      (parseOneCLC declineBadTr).message = none :=
  smc_C2_amended.1 declineBadTr (by decide) (by decide)

/-- C4, amended: skip grows by exactly the header length in every emit
iteration and by length - 8 in every header iteration, so it never
decreases as long as parsed lengths are at least 8 but does not strictly
increase when a length equals 8; and the framer reaches its
drain-and-exit path on every finite input that is a concatenation of
well-formed messages totalling at most the 2048-byte scratch buffer. -/
theorem smc_C4_amended :
    (∀ (input : List Byte) (σ σn : FrState),
      σ.pending.isSome = true → frStep input σ = .next σn →
        σn.skip = σ.skip + CLCHeaderLen) ∧
    (∀ (input : List Byte) (σ σn : FrState) (L : Nat),
      CLCHeaderLen ≤ σ.skip → σ.pending = none → frStep input σ = .next σn →
      σn.pending = some L →
        σn.skip + CLCHeaderLen = σ.skip + L ∧
          (CLCHeaderLen ≤ L → σ.skip ≤ σn.skip)) ∧
    (∀ msgs : List (List Byte), (∀ m ∈ msgs, WellFormedCLC m) →
      (msgs.join).length ≤ clcMessageBufSize →
      runFramer msgs.join (2 * msgs.length + 1) initFrState
        = some (.finished (msgs.map parseOneCLC))) := by
  refine ⟨?_, ?_, ?_⟩
  · intro input σ σn hp hstep
    obtain ⟨t0, sk, e0, pd, o0⟩ := σ
    cases pd with
    | none => simp at hp
    | some L =>
      simp only [frStep] at hstep
      split at hstep
      · exact FrStep.noConfusion hstep
      · split at hstep
        · exact FrStep.noConfusion hstep
        · injection hstep with h
          subst h
          rfl
  · intro input σ σn L hsk hp hstep hpend
    obtain ⟨t0, sk, e0, pd, o0⟩ := σ
    have hp2 : pd = none := hp
    subst hp2
    have hsk2 : CLCHeaderLen ≤ sk := hsk
    have hc8 : CLCHeaderLen = 8 := rfl
    simp only [frStep] at hstep
    split at hstep
    · exact FrStep.noConfusion hstep
    · split at hstep
      · exact FrStep.noConfusion hstep
      · split at hstep
        · exact FrStep.noConfusion hstep
        · injection hstep with h
          subst h
          have h3 : some _ = some L := hpend
          injection h3 with h3
          subst h3
          constructor
          · show sk + _ - CLCHeaderLen + CLCHeaderLen = sk + _
            omega
          · intro hL8
            show sk ≤ sk + _ - CLCHeaderLen
            omega
  · intro msgs hwf hlen
    exact runFramer_frameable msgs (fun m hm => (hwf m hm).1) hlen

/-- C4, counterexample: on an 8-byte stream declaring message length 4
the header iteration continues (does not exit) with skip decreased from 8
to 4, refuting strict increase also for declared lengths below 8. -/
theorem smc_C4_counterexample :
    frStep d4 initFrState = .next ⟨8, 4, false, some 4, []⟩ ∧ (4 : Nat) < 8 := by
  decide

/-- C4, witness: the amended termination conjunct applied to a single
well-formed Decline message. -/
theorem smc_C4_witness :
    runFramer ([declineOK].join) (2 * [declineOK].length + 1) initFrState
      = some (.finished ([declineOK].map parseOneCLC)) :=
  smc_C4_amended.2.2 [declineOK] (by decide) (by decide)

/-- C5, amended: a per-direction stream that is a concatenation of k
well-formed CLC messages is decoded into exactly those k messages in wire
order provided it fits the 2 x 1024-byte scratch buffer; beyond that the
framer stalls (see the counterexample), so the claim's "regardless of the
total number of bytes" fails. -/
theorem smc_C5_amended (msgs : List (List Byte))
    (hwf : ∀ m ∈ msgs, WellFormedCLC m)
    (hlen : (msgs.join).length ≤ clcMessageBufSize) :
    runFramer msgs.join (2 * msgs.length + 1) initFrState
      = some (.finished (msgs.map parseOneCLC)) :=
  runFramer_frameable msgs (fun m hm => (hwf m hm).1) hlen

/-- C5, counterexample: three well-formed messages totalling 2076 bytes;
the framer emits only the first two and then stalls in its fill loop
instead of emitting all three. -/
theorem smc_C5_counterexample :
    runFramer bigInput 5 initFrState
      = some (.stalled [parseOneCLC big1024, parseOneCLC big1024]) := by
  have hb : big1024.length = 1024 := by
    simp only [big1024, List.length_append, List.length_replicate,
      List.length_cons, List.length_nil]
  have hlen : bigInput.length = 2076 := by
    simp only [bigInput, List.length_append, hb, declineOK,
      List.length_cons, List.length_nil]
  have hbuf : clcMessageBufSize = 2048 := rfl
  have hfe : Frameable big1024 := by
    refine ⟨?_, ?_, ?_⟩
    · rw [hb]; decide
    · rw [hb]; decide
    · decide
  have hfr : ∀ m ∈ [big1024, big1024], Frameable m := by
    intro m hm
    simp only [List.mem_cons, List.not_mem_nil, or_false] at hm
    rcases hm with rfl | rfl <;> exact hfe
  have hlay : layoutAt bigInput 0 [big1024, big1024] := by
    apply layoutAt_of_eq bigInput [big1024, big1024] 0 declineOK
    simp [bigInput]
  have hsum : lenSum [big1024, big1024] = 2048 := by simp [lenSum, hb]
  have hstall : frStep bigInput
      ⟨2048, 0 + lenSum [big1024, big1024] + 8, false, none,
        [] ++ [big1024, big1024].map parseOneCLC⟩
      = .stalled ([] ++ [big1024, big1024].map parseOneCLC) :=
    frStep_stall bigInput 2048 _ _ (by omega) (by omega) (by omega)
  have hterm := runFramer_stalled bigInput 0 _ _ hstall
  have hmain := runFramer_layout bigInput 2048 (by omega) (by omega)
    [big1024, big1024] 0 [] 1 _ hfr hlay (by omega) hterm
  have hbridge := frStep_init_eq bigInput [] (by omega)
  have hmin : min bigInput.length clcMessageBufSize = 2048 := by omega
  rw [hmin] at hbridge
  calc runFramer bigInput 5 initFrState
      = runFramer bigInput 5 ⟨2048, 8, false, none, []⟩ :=
        runFramer_congr_step _ 4 _ _ hbridge
    _ = some (.stalled [parseOneCLC big1024, parseOneCLC big1024]) := by
        simpa using hmain

/-- C5, witness: the amended theorem applied to two concatenated valid
Decline messages. -/
theorem smc_C5_witness :
    runFramer ([declineOK, declineOK].join)
        (2 * [declineOK, declineOK].length + 1) initFrState
      = some (.finished ([declineOK, declineOK].map parseOneCLC)) :=
  smc_C5_amended [declineOK, declineOK] (by decide) (by decide)

/-- C8, witness: the concrete 52-byte Proposal declaring five IPv6
entries decodes to a value with zero entries. -/
theorem smc_C8_witness :
    ((parseCLCProposal (extractCLCHeader prop52cnt) prop52cnt).1.map
        fun p => p.ipv6Pfxs.length)
      = some ((List.range 5).countP fun i =>
          decide (40 + 7 + 1 + 17 * i + 21 ≤
            (extractCLCHeader prop52cnt).length)) ∧
    ((List.range 5).countP fun i =>
        decide (40 + 7 + 1 + 17 * i + 21 ≤
          (extractCLCHeader prop52cnt).length)) < 5 :=
  smc_C8_advisory (extractCLCHeader prop52cnt) prop52cnt 40 5 (by decide)
    (by decide) (by decide) (by decide) ⟨0, by decide, by decide⟩

end SmcClc
